import Mathlib

/-!
Verification of the pydjimqtt client core against its specification.

The definitions below are a shallow embedding of the Python source:

* `resolveReply`, `bodyCheck` — the reply-resolution branch of
  `MQTTClient._on_message` (core/mqtt_client.py, lines 534-557);
* `dictSet`, `dictPop`, `cleanup_request`, `serviceCall` — the
  `pending_requests` dict operations of `MQTTClient.publish`,
  `MQTTClient.cleanup_request` and `ServiceCaller.call`
  (core/mqtt_client.py lines 144-147, 383-416, 534-537;
  core/service_caller.py lines 16-41);
* `wait_for_flyto_event` — `MQTTClient.wait_for_flyto_event`
  (core/mqtt_client.py, lines 283-340);
* `retryLoop`, `monitorStep`, `runMonitor` — the state machine of
  `DRCConnectionManager._monitor_loop` (services/connection_manager.py,
  lines 198-254);
* `heartbeatTick` — one iteration of `heartbeat_loop`
  (services/heartbeat.py, lines 35-63);
* `get_osd_frequency`, `is_online`, `lastOsdTime` — the frequency window
  and online check (core/mqtt_client.py, lines 346-381, 445-450).

Machine time values are modelled as rationals; Python dicts as association
lists with unique keys.
-/

namespace PyDJIMQTT

/-- The envelope-level `info` object of a reply, when it is truthy
(non-empty) in the Python source.  `code` and `message` are `none` when the
corresponding key is missing from the dict, mirroring `info.get('code')`
and `info.get('message')`. -/
structure ReplyInfo where
  code : Option Int
  message : Option String
deriving DecidableEq, Repr

/-- The decoded `data` body of a reply: the `result` field when present
(`'result' in data`), the nested `output.msg` error message when present,
and the remaining decoded fields (opaque to the error-handling logic). -/
structure ReplyData where
  result : Option Int
  outputMsg : Option String
  extra : List (String × String)
deriving DecidableEq, Repr

/-- A correlated service reply: transaction id, optional envelope-level
`info` object and the decoded body.  `info = none` models both an absent
`info` key and an empty `info` dict, the two cases the source's
`if info and ...` guard treats as falsy. -/
structure Reply where
  tid : String
  info : Option ReplyInfo
  data : ReplyData
deriving DecidableEq, Repr

/-- Outcome delivered through the pending request's future: either the
decoded body (`future.set_result(data)`) or an error message
(`future.set_exception(Exception(error_msg))`). -/
inductive CallOutcome where
  | ok (body : ReplyData)
  | err (msg : String)
deriving DecidableEq, Repr

/-- Body-level error check of `_on_message`: `elif 'result' in data and
data.get('result') != 0` fails with `data.get('output', \x7b\x7d).get('msg',
'Unknown error')`, else the future is resolved with the body. -/
def bodyCheck (d : ReplyData) : CallOutcome :=
  match d.result with
  | some v => if v ≠ 0 then .err (d.outputMsg.getD "Unknown error") else .ok d
  | none => .ok d

/-- Reply resolution of `_on_message` (mqtt_client.py lines 538-557): the
envelope-level `info.code` is checked first (`if info and info.get('code')
!= 0`), then the body-level `result`. -/
def resolveReply (r : Reply) : CallOutcome :=
  match r.info with
  | some i =>
    if i.code ≠ some 0 then .err (i.message.getD "Unknown error")
    else bodyCheck r.data
  | none => bodyCheck r.data

/-! ## The pending-request table

`MQTTClient.pending_requests` is a Python dict from transaction id to
future.  It is modelled as an association list; `dictSet` is dict
assignment (`self.pending_requests[tid] = future`, replacing any entry with
the same key) and `dictPop` is `dict.pop(tid, None)` (removing the entry
with the key when present, a no-op otherwise).  Futures are opaque and
modelled as naturals. -/

/-- Dict assignment: replace the value at the key when present, else append
the new entry. -/
def dictSet (d : List (String × Nat)) (k : String) (v : Nat) : List (String × Nat) :=
  match d with
  | [] => [(k, v)]
  | (k', v') :: rest => if k' = k then (k, v) :: rest else (k', v') :: dictSet rest k v

/-- Dict `pop(k, None)` restricted to its effect on the table: remove the
entry with the key when present, a no-op otherwise. -/
def dictPop (d : List (String × Nat)) (k : String) : List (String × Nat) :=
  match d with
  | [] => []
  | (k', v') :: rest => if k' = k then rest else (k', v') :: dictPop rest k

/-- Keys of the table. -/
def keys (d : List (String × Nat)) : List String :=
  d.map Prod.fst

/-- `MQTTClient.cleanup_request` (mqtt_client.py lines 144-147):
`self.pending_requests.pop(tid, None)` under the client lock. -/
def cleanup_request (d : List (String × Nat)) (tid : String) : List (String × Nat) :=
  dictPop d tid

/-- Errors surfaced by `ServiceCaller.call`: the re-raised `TimeoutError`
on a missing reply, or the exception set by `_on_message` for a reply that
carries either error encoding. -/
inductive CallError where
  | timeout
  | service (msg : String)
deriving DecidableEq, Repr

/-- One run of `ServiceCaller.call` (service_caller.py lines 16-41) against
a table `tbl`: `MQTTClient.publish` registers the fresh future under `tid`,
then either no matching reply arrives before the deadline (`reply = none`;
`future.result` raises `TimeoutError` and `cleanup_request` removes the
entry) or the matching reply arrives (`_on_message` pops the entry and
resolves the future per `resolveReply`).  Returns the call outcome and the
table afterwards. -/
def serviceCall (tbl : List (String × Nat)) (tid : String) (fut : Nat)
    (reply : Option Reply) : Except CallError ReplyData × List (String × Nat) :=
  let tbl1 := dictSet tbl tid fut
  match reply with
  | none => (.error .timeout, cleanup_request tbl1 tid)
  | some r =>
    let tbl2 := dictPop tbl1 tid
    match resolveReply r with
    | .ok d => (.ok d, tbl2)
    | .err m => (.error (.service m), tbl2)

/-- Events that mutate the pending table over the life of a client: a
request being issued (`publish`), a matching reply arriving
(`_on_message`'s `pop`), and a timeout cleanup (`cleanup_request`). -/
inductive PendingEv where
  | issue (tid : String) (fut : Nat)
  | reply (tid : String)
  | timeoutCleanup (tid : String)
deriving DecidableEq, Repr

/-- Effect of one event on the pending table. -/
def applyEv (tbl : List (String × Nat)) : PendingEv → List (String × Nat)
  | .issue tid fut => dictSet tbl tid fut
  | .reply tid => dictPop tbl tid
  | .timeoutCleanup tid => dictPop tbl tid

/-- The pending table after a sequence of events, starting from the empty
table a fresh `MQTTClient` holds. -/
def runEvs (evs : List PendingEv) : List (String × Nat) :=
  evs.foldl applyEv []

/-! ## Lemmas on the dict model -/

theorem keys_cons (k : String) (v : Nat) (d : List (String × Nat)) :
    keys ((k, v) :: d) = k :: keys d := rfl

theorem mem_keys (d : List (String × Nat)) (x : String) :
    x ∈ keys d ↔ ∃ v, (x, v) ∈ d := by
  constructor
  · intro hx
    rcases List.mem_map.mp hx with ⟨⟨a, b⟩, hab, rfl⟩
    exact ⟨b, hab⟩
  · rintro ⟨v, hv⟩
    exact List.mem_map.mpr ⟨(x, v), hv, rfl⟩

theorem keys_dictSet_subset (d : List (String × Nat)) (k : String) (v : Nat) :
    ∀ x ∈ keys (dictSet d k v), x = k ∨ x ∈ keys d := by
  induction d with
  | nil =>
    intro x hx
    rw [dictSet, keys_cons] at hx
    rcases List.mem_cons.mp hx with hx | hx
    · exact Or.inl hx
    · exact absurd hx (List.not_mem_nil x)
  | cons hd tl ih =>
    obtain ⟨k', v'⟩ := hd
    intro x hx
    by_cases h : k' = k
    · rw [dictSet, if_pos h, keys_cons] at hx
      rcases List.mem_cons.mp hx with hx | hx
      · exact Or.inl hx
      · exact Or.inr (List.mem_cons_of_mem k' hx)
    · rw [dictSet, if_neg h, keys_cons] at hx
      rcases List.mem_cons.mp hx with hx | hx
      · exact Or.inr (hx ▸ List.mem_cons_self k' (keys tl))
      · rcases ih x hx with h1 | h1
        · exact Or.inl h1
        · exact Or.inr (List.mem_cons_of_mem k' h1)

theorem nodup_keys_dictSet (d : List (String × Nat)) (k : String) (v : Nat)
    (h : (keys d).Nodup) : (keys (dictSet d k v)).Nodup := by
  induction d with
  | nil =>
    rw [dictSet, keys_cons]
    exact List.nodup_singleton k
  | cons hd tl ih =>
    obtain ⟨k', v'⟩ := hd
    rw [keys_cons, List.nodup_cons] at h
    by_cases hk : k' = k
    · subst hk
      rw [dictSet, if_pos rfl, keys_cons, List.nodup_cons]
      exact h
    · rw [dictSet, if_neg hk, keys_cons, List.nodup_cons]
      refine ⟨fun hmem => ?_, ih h.2⟩
      rcases keys_dictSet_subset tl k v k' hmem with h1 | h1
      · exact hk h1
      · exact h.1 h1

theorem dictPop_not_mem (d : List (String × Nat)) (k : String)
    (h : k ∉ keys d) : dictPop d k = d := by
  induction d with
  | nil => rfl
  | cons hd tl ih =>
    obtain ⟨k', v'⟩ := hd
    rw [keys_cons] at h
    have h1 : k' ≠ k := fun hkk => h (hkk ▸ List.mem_cons_self k' (keys tl))
    have h2 : k ∉ keys tl := fun hm => h (List.mem_cons_of_mem k' hm)
    rw [dictPop, if_neg h1, ih h2]

theorem not_mem_keys_dictPop (d : List (String × Nat)) (k : String)
    (h : (keys d).Nodup) : k ∉ keys (dictPop d k) := by
  induction d with
  | nil => exact List.not_mem_nil k
  | cons hd tl ih =>
    obtain ⟨k', v'⟩ := hd
    rw [keys_cons, List.nodup_cons] at h
    by_cases hk : k' = k
    · subst hk
      rw [dictPop, if_pos rfl]
      exact h.1
    · rw [dictPop, if_neg hk, keys_cons]
      intro hmem
      rcases List.mem_cons.mp hmem with hx | hx
      · exact hk hx.symm
      · exact ih h.2 hx

theorem keys_dictPop_subset (d : List (String × Nat)) (k : String) :
    ∀ x ∈ keys (dictPop d k), x ∈ keys d := by
  induction d with
  | nil =>
    intro x hx
    exact absurd hx (List.not_mem_nil x)
  | cons hd tl ih =>
    obtain ⟨k', v'⟩ := hd
    intro x hx
    by_cases hk : k' = k
    · rw [dictPop, if_pos hk] at hx
      exact List.mem_cons_of_mem k' hx
    · rw [dictPop, if_neg hk, keys_cons] at hx
      rcases List.mem_cons.mp hx with hx | hx
      · exact hx ▸ List.mem_cons_self k' (keys tl)
      · exact List.mem_cons_of_mem k' (ih x hx)

theorem nodup_keys_dictPop (d : List (String × Nat)) (k : String)
    (h : (keys d).Nodup) : (keys (dictPop d k)).Nodup := by
  induction d with
  | nil => exact List.nodup_nil
  | cons hd tl ih =>
    obtain ⟨k', v'⟩ := hd
    rw [keys_cons, List.nodup_cons] at h
    by_cases hk : k' = k
    · rw [dictPop, if_pos hk]
      exact h.2
    · rw [dictPop, if_neg hk, keys_cons, List.nodup_cons]
      exact ⟨fun hmem => h.1 (keys_dictPop_subset tl k k' hmem), ih h.2⟩

theorem nodup_keys_runEvs (evs : List PendingEv) : (keys (runEvs evs)).Nodup := by
  suffices h : ∀ tbl, (keys tbl).Nodup → ∀ l : List PendingEv,
      (keys (l.foldl applyEv tbl)).Nodup by
    exact h [] (by simp [keys]) evs
  intro tbl htbl l
  induction l generalizing tbl with
  | nil => simpa [runEvs]
  | cons e rest ih =>
    simp only [List.foldl_cons]
    apply ih
    cases e with
    | issue tid fut => exact nodup_keys_dictSet tbl tid fut htbl
    | reply tid => exact nodup_keys_dictPop tbl tid htbl
    | timeoutCleanup tid => exact nodup_keys_dictPop tbl tid htbl

/-! ## Fly-to progress correlation -/

/-- The cached `flyto_progress` record (mqtt_client.py lines 51-59).  Every
field is optional: all start as `None` and are overwritten by each
`fly_to_point_progress` event. -/
structure FlytoProgress where
  fly_to_id : Option String
  status : Option String
  result : Option Int
  way_point_index : Option Int
  remaining_distance : Option ℚ
  remaining_time : Option ℚ
deriving DecidableEq, Repr

/-- The terminal status set of `wait_for_flyto_event`
(mqtt_client.py line 317). -/
def terminalStatuses : List String :=
  ["wayline_ok", "wayline_failed", "wayline_cancel"]

/-- Whether a cached status value is terminal: `status in terminal_statuses`
is `False` for a missing (`None`) status. -/
def isTerminal (status : Option String) : Bool :=
  match status with
  | some s => s ∈ terminalStatuses
  | none => false

/-- `MQTTClient.wait_for_flyto_event` (mqtt_client.py lines 283-340),
abstracted over the snapshots of `flyto_progress` the loop reads on its
successive polls: each element of `polls` is the cached record at one poll
tick, and the list ends at the tick where `elapsed > timeout` first holds,
so an exhausted list is the `TimeoutError` path.  A snapshot is returned
only when its `fly_to_id` equals the expected id and its status is
terminal. -/
def wait_for_flyto_event (expected_fly_to_id : String) :
    List FlytoProgress → Except Unit FlytoProgress
  | [] => .error ()
  | p :: rest =>
    if p.fly_to_id = some expected_fly_to_id ∧ isTerminal p.status then .ok p
    else wait_for_flyto_event expected_fly_to_id rest

/-! ## Claim theorems: request correlation and reply resolution -/

/-- Claim C1: on resolution of a pending request the envelope-level
`info.code` is checked first — when `info` carries `code ≠ 0` the call
fails with the carried `info.message` whatever the body holds — otherwise a
body-level `result ≠ 0` fails with the carried body message, and otherwise
the call succeeds with the decoded body, the reply's `data` field. -/
theorem reply_error_precedence (r : Reply) :
    (∀ i, r.info = some i → i.code ≠ some 0 →
      ∀ d : ReplyData, resolveReply { r with data := d } =
        .err (i.message.getD "Unknown error")) ∧
    ((r.info = none ∨ ∃ i, r.info = some i ∧ i.code = some 0) →
      ∀ v : Int, r.data.result = some v → v ≠ 0 →
        resolveReply r = .err (r.data.outputMsg.getD "Unknown error")) ∧
    ((r.info = none ∨ ∃ i, r.info = some i ∧ i.code = some 0) →
      (r.data.result = none ∨ r.data.result = some 0) →
        resolveReply r = .ok r.data) := by
  refine ⟨?_, ?_, ?_⟩
  · intro i hi hc d
    simp [resolveReply, hi, hc]
  · intro hinfo v hv hv0
    rcases hinfo with hi | ⟨i, hi, hc⟩
    · simp [resolveReply, hi, bodyCheck, hv, hv0]
    · simp [resolveReply, hi, hc, bodyCheck, hv, hv0]
  · intro hinfo hres
    rcases hinfo with hi | ⟨i, hi, hc⟩
    · rcases hres with hr | hr
      · simp [resolveReply, hi, bodyCheck, hr]
      · simp [resolveReply, hi, bodyCheck, hr]
    · rcases hres with hr | hr
      · simp [resolveReply, hi, hc, bodyCheck, hr]
      · simp [resolveReply, hi, hc, bodyCheck, hr]

/-- Witness for C1 at concrete replies: an envelope-level error (with a
conflicting body), a body-level error, and a success. -/
theorem reply_error_precedence_witness :
    (resolveReply
        { tid := "t1", info := some { code := some 314, message := some "bad auth" },
          data := { result := some 0, outputMsg := some "ignored", extra := [] } } =
      .err "bad auth") ∧
    (resolveReply
        { tid := "t2", info := none,
          data := { result := some 1, outputMsg := some "drc busy", extra := [] } } =
      .err "drc busy") ∧
    (resolveReply
        { tid := "t3", info := some { code := some 0, message := none },
          data := { result := some 0, outputMsg := none, extra := [("k", "v")] } } =
      .ok { result := some 0, outputMsg := none, extra := [("k", "v")] }) := by
  refine ⟨?_, ?_, ?_⟩
  · exact (reply_error_precedence
      { tid := "t1", info := some { code := some 314, message := some "bad auth" },
        data := { result := some 0, outputMsg := some "ignored", extra := [] } }).1
      { code := some 314, message := some "bad auth" } rfl (by decide)
      { result := some 0, outputMsg := some "ignored", extra := [] }
  · exact (reply_error_precedence
      { tid := "t2", info := none,
        data := { result := some 1, outputMsg := some "drc busy", extra := [] } }).2.1
      (Or.inl rfl) 1 rfl (by decide)
  · exact (reply_error_precedence
      { tid := "t3", info := some { code := some 0, message := none },
        data := { result := some 0, outputMsg := none, extra := [("k", "v")] } }).2.2
      (Or.inr ⟨{ code := some 0, message := none }, rfl, rfl⟩) (Or.inr rfl)

/-- Claim C2: a call whose matching reply never arrives fails with
`Timeout`; afterwards the pending table no longer holds the call's
transaction id, and removing the entry a second time is a no-op. -/
theorem call_timeout_cleanup (tbl : List (String × Nat)) (tid : String) (fut : Nat)
    (h : (keys tbl).Nodup) :
    (serviceCall tbl tid fut none).1 = .error .timeout ∧
    tid ∉ keys (serviceCall tbl tid fut none).2 ∧
    cleanup_request (serviceCall tbl tid fut none).2 tid =
      (serviceCall tbl tid fut none).2 := by
  have hset : (keys (dictSet tbl tid fut)).Nodup := nodup_keys_dictSet tbl tid fut h
  have hnm : tid ∉ keys (dictPop (dictSet tbl tid fut) tid) :=
    not_mem_keys_dictPop (dictSet tbl tid fut) tid hset
  refine ⟨rfl, ?_, ?_⟩
  · simpa [serviceCall, cleanup_request] using hnm
  · simp only [serviceCall, cleanup_request]
    exact dictPop_not_mem (dictPop (dictSet tbl tid fut) tid) tid hnm

/-- Witness for C2 at a concrete table holding one other pending call. -/
theorem call_timeout_cleanup_witness :
    (serviceCall [("other", 7)] "abc" 1 none).1 = .error .timeout ∧
    "abc" ∉ keys (serviceCall [("other", 7)] "abc" 1 none).2 ∧
    cleanup_request (serviceCall [("other", 7)] "abc" 1 none).2 "abc" =
      (serviceCall [("other", 7)] "abc" 1 none).2 :=
  call_timeout_cleanup [("other", 7)] "abc" 1 (by decide)

/-- Claim C3: along every sequence of issued requests and inbound replies
the pending table holds at most one entry per transaction id, and after a
matching reply or a timeout cleanup resolves a transaction id, no entry for
it remains (and removing it again changes nothing). -/
theorem pending_unique_and_cleared (evs : List PendingEv) (tid : String) :
    (keys (runEvs evs)).Nodup ∧
    tid ∉ keys (applyEv (runEvs evs) (.reply tid)) ∧
    tid ∉ keys (applyEv (runEvs evs) (.timeoutCleanup tid)) ∧
    applyEv (applyEv (runEvs evs) (.reply tid)) (.timeoutCleanup tid) =
      applyEv (runEvs evs) (.reply tid) := by
  have h := nodup_keys_runEvs evs
  have hpop : tid ∉ keys (dictPop (runEvs evs) tid) :=
    not_mem_keys_dictPop (runEvs evs) tid h
  exact ⟨h, hpop, hpop, dictPop_not_mem (dictPop (runEvs evs) tid) tid hpop⟩

/-! ## Claim theorems: fly-to progress correlation -/

/-- Claim C4: the fly-to wait returns a cached record only when its carried
task id equals the expected id and its status is terminal — a record with a
different task id is never returned, terminal or not — and when no poll
observes a matching terminal record the wait fails with `Timeout`. -/
theorem flyto_wait_correlation (expected : String) (polls : List FlytoProgress) :
    (∀ p : FlytoProgress, wait_for_flyto_event expected polls = .ok p →
      p.fly_to_id = some expected ∧ isTerminal p.status = true) ∧
    ((∀ p ∈ polls, ¬(p.fly_to_id = some expected ∧ isTerminal p.status = true)) →
      wait_for_flyto_event expected polls = .error ()) := by
  induction polls with
  | nil =>
    refine ⟨fun p hp => ?_, fun _ => rfl⟩
    simp [wait_for_flyto_event] at hp
  | cons q rest ih =>
    constructor
    · intro p hp
      rw [wait_for_flyto_event] at hp
      by_cases hq : q.fly_to_id = some expected ∧ isTerminal q.status
      · rw [if_pos hq] at hp
        cases hp
        exact hq
      · rw [if_neg hq] at hp
        exact ih.1 p hp
    · intro hall
      rw [wait_for_flyto_event]
      have hq : ¬(q.fly_to_id = some expected ∧ isTerminal q.status = true) :=
        hall q (List.mem_cons_self q rest)
      rw [if_neg hq]
      exact ih.2 fun p hp => hall p (List.mem_cons_of_mem q hp)

/-- Witness for C4: a stale terminal record for another task is skipped,
the matching terminal record is returned; and a run that only ever sees the
stale task's records times out. -/
theorem flyto_wait_correlation_witness :
    (({ fly_to_id := some "task-x", status := some "wayline_ok", result := some 0,
        way_point_index := none, remaining_distance := none, remaining_time := none } :
        FlytoProgress).fly_to_id = some "task-x" ∧
      isTerminal ({ fly_to_id := some "task-x", status := some "wayline_ok",
                    result := some 0, way_point_index := none,
                    remaining_distance := none,
                    remaining_time := none } : FlytoProgress).status = true) ∧
    (wait_for_flyto_event "task-x"
      [{ fly_to_id := some "task-w", status := some "wayline_ok", result := some 0,
         way_point_index := none, remaining_distance := none, remaining_time := none }] =
      .error ()) := by
  constructor
  · exact (flyto_wait_correlation "task-x"
      [{ fly_to_id := some "task-w", status := some "wayline_ok", result := some 0,
         way_point_index := none, remaining_distance := none, remaining_time := none },
       { fly_to_id := some "task-x", status := some "wayline_ok", result := some 0,
         way_point_index := none, remaining_distance := none, remaining_time := none }]).1
      { fly_to_id := some "task-x", status := some "wayline_ok", result := some 0,
        way_point_index := none, remaining_distance := none, remaining_time := none }
      (by rfl)
  · exact (flyto_wait_correlation "task-x"
      [{ fly_to_id := some "task-w", status := some "wayline_ok", result := some 0,
         way_point_index := none, remaining_distance := none, remaining_time := none }]).2
      (by
        intro p hp
        simp only [List.mem_singleton] at hp
        subst hp
        simp)

/-! ## The connection-health state machine

`DRCConnectionManager._monitor_loop` (connection_manager.py lines 198-254)
is a loop over poll ticks.  Each tick reads `mqtt.is_online`; when it is
false and the state is `online`, the state is set to `reconnecting` and an
inner retry loop runs up to `reconnect_attempts` calls of
`_reconnect_drc`, breaking early on the stop flag or on a success; the
`for`-`else` clause sets `offline` when every attempt failed.  When
`is_online` is true and the state is `reconnecting`, the state is set back
to `online`.  A tick is modelled by `monitorStep`, driven by the observed
`is_online` value and the schedule of the retry loop's iterations. -/

/-- The `ConnectionState` constants `ONLINE`, `RECONNECTING`, `OFFLINE`
(connection_manager.py lines 27-33). -/
inductive ConnState where
  | online
  | reconnecting
  | offline
deriving DecidableEq, Repr

/-- One iteration of the inner retry loop, as the environment drives it:
either the stop flag reads set before the attempt (`if
self.stop_flag.is_set(): break`) or `_reconnect_drc()` runs and returns
`success`. -/
inductive AttemptStep where
  | stopSignal
  | attempt (success : Bool)
deriving DecidableEq, Repr

/-- State changes `_set_state` performs during one monitor tick, tagged
with the branch of the source that performs them: entering reconnecting
(line 223), going online after `_reconnect_drc()` returned true (line 236),
going offline after the retry budget is exhausted (line 247), and going
online in the telemetry-recovered branch (line 254). -/
inductive TransEv where
  | toReconnecting
  | onlineViaAttempt
  | onlineViaTelemetry
  | toOffline
deriving DecidableEq, Repr

/-- The state a transition event sets. -/
def evState : TransEv → ConnState
  | .toReconnecting => .reconnecting
  | .onlineViaAttempt => .online
  | .onlineViaTelemetry => .online
  | .toOffline => .offline

/-- The retry loop (connection_manager.py lines 226-247) over its iteration
schedule (one entry per loop iteration, so a schedule of length
`reconnect_attempts` models a full budget).  Returns the state after the
loop, the transition events emitted, the number of `_reconnect_drc` calls
made, and whether the loop was broken by the stop flag.  An empty schedule
falls to the `for`-`else` clause, which sets `offline`. -/
def retryLoop : List AttemptStep → ConnState × List TransEv × Nat × Bool
  | [] => (.offline, [.toOffline], 0, false)
  | .stopSignal :: _ => (.reconnecting, [], 0, true)
  | .attempt true :: _ => (.online, [.onlineViaAttempt], 1, false)
  | .attempt false :: rest =>
    let r := retryLoop rest
    (r.1, r.2.1, r.2.2.1 + 1, r.2.2.2)

/-- What one monitor tick observes: the value `mqtt.is_online` returns at
the top of the tick, and the schedule the retry loop would run through if
it is entered. -/
structure MonIn where
  isOnline : Bool
  sched : List AttemptStep
deriving DecidableEq, Repr

/-- One iteration of the monitor loop body (connection_manager.py lines
211-254) from state `s`: when offline is detected the retry sequence runs
only if the state is `online`; when telemetry is live a `reconnecting`
state is set back to `online`.  Returns the new state, the transition
events, the number of re-entry attempts, and whether the stop flag broke
the retry loop. -/
def monitorStep (s : ConnState) (inp : MonIn) : ConnState × List TransEv × Nat × Bool :=
  if inp.isOnline then
    if s = .reconnecting then (.online, [.onlineViaTelemetry], 0, false)
    else (s, [], 0, false)
  else
    if s = .online then
      let r := retryLoop inp.sched
      (r.1, .toReconnecting :: r.2.1, r.2.2.1, r.2.2.2)
    else (s, [], 0, false)

/-- The monitor loop from state `s` over a sequence of tick observations:
the transition events of the whole run.  The run ends when the input list
is exhausted or when a tick saw the stop flag set (the outer `while not
self.stop_flag.is_set()` then exits before the next tick). -/
def runMonitor : ConnState → List MonIn → List TransEv
  | _, [] => []
  | s, inp :: rest =>
    let r := monitorStep s inp
    if r.2.2.2 then r.2.1 else r.2.1 ++ runMonitor r.1 rest

/-- The sequence of states the manager passes through in a run that starts
from the initial state `ONLINE` (connection_manager.py line 84): the
initial state followed by the state set by each transition event. -/
def monitorStates (inputs : List MonIn) : List ConnState :=
  ConnState.online :: (runMonitor .online inputs).map evState

/-! ## Lemmas on the monitor model -/

theorem retryLoop_cases (sched : List AttemptStep) :
    (∃ k, retryLoop sched = (.offline, [.toOffline], k, false)) ∨
    (∃ k, retryLoop sched = (.online, [.onlineViaAttempt], k, false)) ∨
    (∃ k, retryLoop sched = (.reconnecting, [], k, true)) := by
  induction sched with
  | nil => exact Or.inl ⟨0, rfl⟩
  | cons a rest ih =>
    cases a with
    | stopSignal => exact Or.inr (Or.inr ⟨0, rfl⟩)
    | attempt success =>
      cases success with
      | true => exact Or.inr (Or.inl ⟨1, rfl⟩)
      | false =>
        rcases ih with ⟨k, hk⟩ | ⟨k, hk⟩ | ⟨k, hk⟩
        · exact Or.inl ⟨k + 1, by simp [retryLoop, hk]⟩
        · exact Or.inr (Or.inl ⟨k + 1, by simp [retryLoop, hk]⟩)
        · exact Or.inr (Or.inr ⟨k + 1, by simp [retryLoop, hk]⟩)

theorem onlineViaTelemetry_not_in_retryLoop (sched : List AttemptStep) :
    TransEv.onlineViaTelemetry ∉ (retryLoop sched).2.1 := by
  rcases retryLoop_cases sched with ⟨k, hk⟩ | ⟨k, hk⟩ | ⟨k, hk⟩ <;> simp [hk]

/-- At the top of every tick of a run that was not stopped, the state is
not `reconnecting`: the retry block leaves `reconnecting` only through a
success, exhaustion, or the stop flag, and the stop flag ends the run. -/
theorem runMonitor_no_telemetry_branch (inputs : List MonIn) :
    ∀ s : ConnState, s ≠ .reconnecting →
      TransEv.onlineViaTelemetry ∉ runMonitor s inputs := by
  induction inputs with
  | nil =>
    intro s _
    simp [runMonitor]
  | cons inp rest ih =>
    intro s hs
    rw [runMonitor]
    by_cases hon : inp.isOnline
    · have hstep : monitorStep s inp = (s, [], 0, false) := by
        simp [monitorStep, hon, hs]
      simpa [hstep] using ih s hs
    · by_cases hso : s = ConnState.online
      · subst hso
        rcases retryLoop_cases inp.sched with ⟨k, hk⟩ | ⟨k, hk⟩ | ⟨k, hk⟩
        · have hstep : monitorStep ConnState.online inp =
              (.offline, [.toReconnecting, .toOffline], k, false) := by
            simp [monitorStep, hon, hk]
          have hrest := ih ConnState.offline (by simp)
          simp [hstep, hrest]
        · have hstep : monitorStep ConnState.online inp =
              (.online, [.toReconnecting, .onlineViaAttempt], k, false) := by
            simp [monitorStep, hon, hk]
          have hrest := ih ConnState.online (by simp)
          simp [hstep, hrest]
        · have hstep : monitorStep ConnState.online inp =
              (.reconnecting, [.toReconnecting], k, true) := by
            simp [monitorStep, hon, hk]
          simp [hstep]
      · have hstep : monitorStep s inp = (s, [], 0, false) := by
          simp [monitorStep, hon, hso]
        simpa [hstep] using ih s hs

/-- Claim C5: in every run of the monitor loop from the initial state
`ONLINE`, the state never changes directly from `online` to `offline`;
whenever a step of the visited-state sequence ends in `offline`, the state
it came from is `reconnecting`. -/
theorem monitor_no_direct_online_offline (inputs : List MonIn) :
    List.Chain' (fun a b => b = ConnState.offline → a = ConnState.reconnecting)
      (monitorStates inputs) := by
  suffices h : ∀ (l : List MonIn) (s : ConnState),
      List.Chain' (fun a b => b = ConnState.offline → a = ConnState.reconnecting)
        (s :: (runMonitor s l).map evState) by
    exact h inputs .online
  intro l
  induction l with
  | nil =>
    intro s
    simp [runMonitor]
  | cons inp rest ih =>
    intro s
    simp only [runMonitor]
    by_cases hon : inp.isOnline
    · by_cases hs : s = ConnState.reconnecting
      · subst hs
        have hstep : monitorStep ConnState.reconnecting inp =
            (.online, [.onlineViaTelemetry], 0, false) := by
          simp [monitorStep, hon]
        simp only [hstep, List.cons_append, List.nil_append, List.map_cons,
          List.map_append]
        exact List.chain'_cons.mpr ⟨by simp [evState], ih ConnState.online⟩
      · have hstep : monitorStep s inp = (s, [], 0, false) := by
          simp [monitorStep, hon, hs]
        simpa [hstep] using ih s
    · by_cases hso : s = ConnState.online
      · subst hso
        rcases retryLoop_cases inp.sched with ⟨k, hk⟩ | ⟨k, hk⟩ | ⟨k, hk⟩
        · have hstep : monitorStep ConnState.online inp =
              (.offline, [.toReconnecting, .toOffline], k, false) := by
            simp [monitorStep, hon, hk]
          simp only [hstep, List.cons_append, List.nil_append, List.map_cons,
            List.map_append]
          refine List.chain'_cons.mpr ⟨by simp [evState], ?_⟩
          exact List.chain'_cons.mpr ⟨fun _ => rfl, ih ConnState.offline⟩
        · have hstep : monitorStep ConnState.online inp =
              (.online, [.toReconnecting, .onlineViaAttempt], k, false) := by
            simp [monitorStep, hon, hk]
          simp only [hstep, List.cons_append, List.nil_append, List.map_cons,
            List.map_append]
          refine List.chain'_cons.mpr ⟨by simp [evState], ?_⟩
          exact List.chain'_cons.mpr ⟨by simp [evState], ih ConnState.online⟩
        · have hstep : monitorStep ConnState.online inp =
              (.reconnecting, [.toReconnecting], k, true) := by
            simp [monitorStep, hon, hk]
          simp only [hstep, if_true, List.map_cons, List.map_nil]
          exact List.chain'_cons.mpr ⟨by simp [evState], List.chain'_singleton _⟩
      · have hstep : monitorStep s inp = (s, [], 0, false) := by
          simp [monitorStep, hon, hso]
        simpa [hstep] using ih s

/-- Claim C6: a full retry budget of `n` failed re-entry attempts performs
exactly `n` attempts and settles the state at `offline`; a monitor tick
that detects silence while `online` and exhausts an all-failure schedule
of length `n` ends at `offline`; and `offline` is terminal for the monitor
instance — a tick that starts at `offline` makes no re-entry attempt,
emits no transition, and the rest of the run from `offline` emits none
either. -/
theorem reconnect_exhaustion_offline_terminal (n : Nat) (inp : MonIn)
    (inputs : List MonIn) :
    retryLoop (List.replicate n (.attempt false)) = (.offline, [.toOffline], n, false) ∧
    monitorStep .online { isOnline := false, sched := List.replicate n (.attempt false) } =
      (.offline, [.toReconnecting, .toOffline], n, false) ∧
    monitorStep .offline inp = (.offline, [], 0, false) ∧
    runMonitor .offline inputs = [] := by
  have hretry : ∀ m : Nat,
      retryLoop (List.replicate m (.attempt false)) = (.offline, [.toOffline], m, false) := by
    intro m
    induction m with
    | zero => rfl
    | succ m ihm => simp [List.replicate_succ, retryLoop, ihm]
  have hoff : ∀ j : MonIn, monitorStep .offline j = (.offline, [], 0, false) := by
    intro j
    by_cases hon : j.isOnline <;> simp [monitorStep, hon]
  refine ⟨hretry n, by simp [monitorStep, hretry n], hoff inp, ?_⟩
  induction inputs with
  | nil => rfl
  | cons j rest ihr => simp [runMonitor, hoff j, ihr]

/-- Counterexample to claim C7: there is no run of the monitor loop from
the initial state `ONLINE` in which the telemetry-recovered branch
(connection_manager.py lines 251-254) fires — so no execution transitions
`reconnecting` to `online` mid-retry-loop without a successful re-entry
attempt: the monitor only leaves `reconnecting` through a successful
`_reconnect_drc`, exhaustion, or the stop flag. -/
theorem no_online_via_telemetry :
    ¬ ∃ inputs : List MonIn, TransEv.onlineViaTelemetry ∈ runMonitor .online inputs := by
  rintro ⟨inputs, h⟩
  exact runMonitor_no_telemetry_branch inputs ConnState.online (by simp) h

/-- Claim C7 as amended: in every run of the monitor loop from the initial
state `ONLINE`, every transition that sets the state to `online` again is
the one performed after a successful re-entry attempt; the
telemetry-recovered return to `online` never fires, because the state is
never `reconnecting` when a monitor tick begins. -/
theorem reconnecting_to_online_only_via_attempt (inputs : List MonIn) :
    ∀ ev ∈ runMonitor .online inputs, evState ev = .online →
      ev = .onlineViaAttempt := by
  intro ev hev hst
  cases ev with
  | onlineViaAttempt => rfl
  | onlineViaTelemetry =>
    exact absurd hev (runMonitor_no_telemetry_branch inputs ConnState.online (by simp))
  | toReconnecting => simp [evState] at hst
  | toOffline => simp [evState] at hst

/-- Witness for the amended C7: a run in which the first re-entry attempt
succeeds emits its return-to-online via that attempt. -/
theorem reconnecting_to_online_only_via_attempt_witness :
    TransEv.onlineViaAttempt ∈
      runMonitor .online [{ isOnline := false, sched := [.attempt true] }] ∧
    TransEv.onlineViaAttempt = TransEv.onlineViaAttempt := by
  refine ⟨by decide, ?_⟩
  exact reconnecting_to_online_only_via_attempt
    [{ isOnline := false, sched := [.attempt true] }]
    TransEv.onlineViaAttempt (by decide) (by decide)

/-! ## The heartbeat loop -/

/-- What one iteration of `heartbeat_loop` does: sleep for a duration, or
publish one heartbeat. -/
inductive HbAct where
  | sleep (duration : ℚ)
  | fire
deriving DecidableEq, Repr

/-- One iteration of `heartbeat_loop` (heartbeat.py lines 40-63) given the
configured `interval`, the tracked absolute deadline `next_tick` and the
clock reading `now`: when `now < next_tick` the loop sleeps
`min(interval, next_tick - now)` and leaves the deadline unchanged (the
`continue` branch); otherwise it publishes one heartbeat, advances the
deadline by exactly one `interval` from the previous target
(`next_tick += interval`), and re-synchronizes it to `now + interval` only
when the advanced deadline is still in the past (`if next_tick < now`). -/
def heartbeatTick (interval nextTick now : ℚ) : HbAct × ℚ :=
  if now < nextTick then (.sleep (min interval (nextTick - now)), nextTick)
  else
    let nt := nextTick + interval
    (.fire, if nt < now then now + interval else nt)

/-- Whether every iteration along a sequence of clock readings starts with
`next_tick ≤ now + interval` — the bound that makes the sleep branch's
`min` always pick the exact remaining time. -/
def hbInvariant (interval : ℚ) : ℚ → List ℚ → Bool
  | _, [] => true
  | nextTick, now :: rest =>
    decide (nextTick ≤ now + interval) &&
      hbInvariant interval (heartbeatTick interval nextTick now).2 rest

theorem heartbeatTick_next_le (interval nextTick now now2 : ℚ)
    (h1 : nextTick ≤ now + interval) (h2 : now ≤ now2) :
    (heartbeatTick interval nextTick now).2 ≤ now2 + interval := by
  simp only [heartbeatTick]
  by_cases hlt : now < nextTick
  · simp only [hlt, if_true]
    linarith
  · simp only [hlt, if_false]
    push_neg at hlt
    by_cases hr : nextTick + interval < now
    · simp only [hr, if_true]
      linarith
    · simp only [hr, if_false]
      linarith

theorem hbInvariant_holds (interval : ℚ) :
    ∀ (nows : List ℚ) (nextTick now : ℚ), nextTick ≤ now + interval →
      List.Chain' (· ≤ ·) (now :: nows) →
      hbInvariant interval nextTick (now :: nows) = true := by
  intro nows
  induction nows with
  | nil =>
    intro nextTick now h _
    simp [hbInvariant, h]
  | cons now2 rest ih =>
    intro nextTick now h hchain
    rw [List.chain'_cons] at hchain
    have hstep := heartbeatTick_next_le interval nextTick now now2 h hchain.1
    rw [hbInvariant, Bool.and_eq_true, decide_eq_true_eq]
    exact ⟨h, ih _ now2 hstep hchain.2⟩

/-- Claim C8: the heartbeat loop tracks an absolute deadline.  On a tick
that has not reached the deadline it sleeps exactly the remaining time to
it (given the invariant bound, the `min` never truncates to a fixed
increment); on a firing tick that is at most one interval late the next
deadline is the previous target plus exactly one interval; the
re-synchronization to `now + interval` happens exactly when the loop has
fallen behind the previous target by more than one interval; and the
invariant bound holds at every tick of any run over monotone clock
readings that starts at the deadline's initialisation point. -/
theorem heartbeat_drift_correction (interval nextTick now : ℚ)
    (hinv : nextTick ≤ now + interval) :
    (now < nextTick →
      heartbeatTick interval nextTick now = (.sleep (nextTick - now), nextTick)) ∧
    (nextTick ≤ now → now ≤ nextTick + interval →
      heartbeatTick interval nextTick now = (.fire, nextTick + interval)) ∧
    (nextTick + interval < now ↔ interval < now - nextTick) ∧
    (nextTick ≤ now → interval < now - nextTick →
      heartbeatTick interval nextTick now = (.fire, now + interval)) ∧
    (∀ nows : List ℚ, List.Chain' (· ≤ ·) (now :: nows) →
      hbInvariant interval nextTick (now :: nows) = true) := by
  refine ⟨?_, ?_, by constructor <;> intro h <;> linarith, ?_, ?_⟩
  · intro hlt
    have hmin : min interval (nextTick - now) = nextTick - now := by
      apply min_eq_right
      linarith
    simp [heartbeatTick, hlt, hmin]
  · intro hge hle
    have hlt : ¬now < nextTick := not_lt.mpr hge
    have hr : ¬nextTick + interval < now := not_lt.mpr hle
    simp [heartbeatTick, hlt, hr]
  · intro hge hbehind
    have hlt : ¬now < nextTick := not_lt.mpr hge
    have hr : nextTick + interval < now := by linarith
    simp [heartbeatTick, hlt, hr]
  · intro nows hchain
    exact hbInvariant_holds interval nows nextTick now hinv hchain

/-- Witness for C8: with interval 2 and a deadline 1 ahead of the clock,
the loop sleeps exactly the remaining 1 second. -/
theorem heartbeat_drift_correction_witness :
    heartbeatTick 2 1 0 = (.sleep 1, 1) := by
  have h := (heartbeat_drift_correction 2 1 0 (by norm_num)).1 (by norm_num)
  simpa using h

/-! ## The frequency window and the online check -/

/-- `MQTTClient.get_osd_frequency` (mqtt_client.py lines 346-363) applied
to the window's timestamp list `_osd_timestamps`: 0.0 with fewer than 2
recorded timestamps, 0.0 on a zero time span, else
`(len(timestamps) - 1) / (timestamps[-1] - timestamps[0])`. -/
def get_osd_frequency (tss : List ℚ) : ℚ :=
  if tss.length < 2 then 0
  else
    let span := tss.getLast?.getD 0 - tss.head?.getD 0
    if span = 0 then 0 else ((tss.length : ℚ) - 1) / span

/-- `n` timestamps spread uniformly over a duration of `D` seconds from
`t0`: the k-th at `t0 + k * (D / (n - 1))`, so the first sits at the start
and the last at the end of the duration. -/
def uniformStamps (t0 D : ℚ) (n : ℕ) : List ℚ :=
  (List.range n).map fun k : ℕ => t0 + (k : ℚ) * (D / ((n : ℚ) - 1))

theorem uniformStamps_length (t0 D : ℚ) (n : ℕ) :
    (uniformStamps t0 D n).length = n := by
  simp [uniformStamps]

theorem uniformStamps_head (t0 D : ℚ) (n : ℕ) (hn : 1 ≤ n) :
    (uniformStamps t0 D n).head?.getD 0 = t0 := by
  obtain ⟨m, rfl⟩ : ∃ m, n = m + 1 := ⟨n - 1, (Nat.succ_pred_eq_of_pos hn).symm⟩
  simp [uniformStamps, List.range_succ_eq_map]

theorem uniformStamps_getLast (t0 D : ℚ) (n : ℕ) (hn : 2 ≤ n) :
    (uniformStamps t0 D n).getLast?.getD 0 = t0 + D := by
  obtain ⟨m, rfl⟩ : ∃ m, n = m + 1 := ⟨n - 1, (Nat.succ_pred_eq_of_pos (by omega)).symm⟩
  have hm : 1 ≤ m := by omega
  have hm0 : ((m : ℕ) : ℚ) ≠ 0 := Nat.cast_ne_zero.mpr (by omega)
  rw [uniformStamps, List.range_succ, List.map_append]
  simp only [List.map_cons, List.map_nil, List.getLast?_concat, Option.getD_some]
  have hcast : ((m + 1 : ℕ) : ℚ) - 1 = (m : ℚ) := by
    push_cast
    ring
  rw [hcast, mul_comm, div_mul_cancel₀ D hm0]

/-- Claim C9: the frequency-window rate is 0 with fewer than 2 recorded
timestamps, and on `n` timestamps spread uniformly over `D` seconds it is
exactly `(n - 1) / D` — in particular within 1% of it. -/
theorem frequency_window_rate (tss : List ℚ) (t0 D : ℚ) (n : ℕ)
    (hn : 2 ≤ n) (hD : 0 < D) :
    (tss.length < 2 → get_osd_frequency tss = 0) ∧
    get_osd_frequency (uniformStamps t0 D n) = ((n : ℚ) - 1) / D ∧
    |get_osd_frequency (uniformStamps t0 D n) - ((n : ℚ) - 1) / D| ≤
      (1 / 100) * (((n : ℚ) - 1) / D) := by
  have hlen : ¬(uniformStamps t0 D n).length < 2 := by
    rw [uniformStamps_length]
    omega
  have hspan : (uniformStamps t0 D n).getLast?.getD 0 -
      (uniformStamps t0 D n).head?.getD 0 = D := by
    rw [uniformStamps_getLast t0 D n hn, uniformStamps_head t0 D n (by omega)]
    ring
  have hD0 : ¬(D = 0) := ne_of_gt hD
  have hrate : get_osd_frequency (uniformStamps t0 D n) = ((n : ℚ) - 1) / D := by
    rw [get_osd_frequency, if_neg hlen]
    simp only [hspan, hD0, if_false, uniformStamps_length]
  refine ⟨fun h => by rw [get_osd_frequency, if_pos h], hrate, ?_⟩
  rw [hrate, sub_self, abs_zero]
  have hn1 : (0 : ℚ) ≤ (n : ℚ) - 1 := by
    have : (2 : ℚ) ≤ (n : ℚ) := by exact_mod_cast hn
    linarith
  have := div_nonneg hn1 (le_of_lt hD)
  linarith

/-- Witness for C9: 5 timestamps uniform over 2 seconds rate at exactly
(5 - 1) / 2 = 2 Hz. -/
theorem frequency_window_rate_witness :
    get_osd_frequency (uniformStamps 0 2 5) = ((5 : ℚ) - 1) / 2 :=
  (frequency_window_rate [] 0 2 5 (by norm_num) (by norm_num)).2.1

/-- `MQTTClient.is_online` (mqtt_client.py lines 365-381): `False` while
`_last_osd_time == 0` (no OSD push ever received), else whether the last
arrival lies within `timeout` seconds of the current clock reading. -/
def is_online (last_osd_time now timeout : ℚ) : Bool :=
  if last_osd_time = 0 then false else decide (now - last_osd_time < timeout)

/-- `_last_osd_time` after a sequence of OSD-push arrival clock readings:
initialised to 0.0 (mqtt_client.py line 64) and overwritten with the
arrival time by each `osd_info_push` (line 446). -/
def lastOsdTime (arrivals : List ℚ) : ℚ :=
  arrivals.foldl (fun _ t => t) 0

/-- Claim C10: with no OSD push ever received the online check returns
`False` whatever the timeout argument; once a push has arrived (at a
positive clock reading `t`, as `time.time()` readings are) the check
compares the last arrival against the timeout. -/
theorem is_online_requires_first_push (now timeout t : ℚ) (arrivals : List ℚ)
    (ht : 0 < t) :
    lastOsdTime [] = 0 ∧
    (∀ timeout2 : ℚ, is_online (lastOsdTime []) now timeout2 = false) ∧
    is_online (lastOsdTime (arrivals ++ [t])) now timeout =
      decide (now - t < timeout) := by
  have hlast : lastOsdTime (arrivals ++ [t]) = t := by
    rw [lastOsdTime, List.foldl_append]
    rfl
  refine ⟨rfl, fun timeout2 => rfl, ?_⟩
  rw [hlast, is_online, if_neg (ne_of_gt ht)]

/-- Witness for C10: after pushes at times 1, 5 and 9, the check at time 10
with timeout 2 compares 10 - 9 < 2. -/
theorem is_online_requires_first_push_witness :
    is_online (lastOsdTime ([1, 5] ++ [9])) 10 2 = decide ((10 : ℚ) - 9 < 2) :=
  (is_online_requires_first_push 10 2 9 [1, 5] (by norm_num)).2.2

end PyDJIMQTT
